import Mathlib

/-!
Verification of `uproot_methods/common/TVector.py`.

The module under study provides mixin behaviours for geometric vectors in
two flavours: scalar mode (`Methods`, one vector at a time, plain `math`
calls) and array mode (`ArrayMethods`, equal-length sequences of vectors,
numpy-style masked elementwise operations), on top of a shared base
(`Common`).  We embed both modes shallowly: a scalar vector is a record of
three real components, an array vector is a list of such records, and each
numpy elementwise/masked operation becomes the corresponding `List.map` /
`List.zipWith` of its per-element meaning.  Python's fallible operations
(`float` division by zero, `math.acos` outside [-1, 1], the disabled
ordering operators) are embedded in `Except String`.
-/

noncomputable section

/-- Modelled from the spec: the concrete vector classes supplying `x`, `y`,
`z` live outside this module ("Out of scope (external collaborators): the
concrete vector classes ... that supply `x`, `y`, `z`, `dot`, `cross`,
`_vector`").  A scalar vector-like value is a record of three real
components. -/
structure Vec3 where
  x : ℝ
  y : ℝ
  z : ℝ

/-- Modelled from the spec: `dot(other)` of the external concrete vector
class, "a `dot` product against another vector-like value of the same
shape" — the standard euclidean dot product. -/
def Vec3.dot (a b : Vec3) : ℝ :=
  a.x * b.x + a.y * b.y + a.z * b.z

/-- Modelled from the spec: `self + other` delegates to
`_vector(operator.add, other)` of the external concrete class, producing
the componentwise sum. -/
instance : Add Vec3 := ⟨fun a b => ⟨a.x + b.x, a.y + b.y, a.z + b.z⟩⟩

/-- Modelled from the spec: `isperpendicular` in both modes reads the
`.x`, `.y`, `.z` components of `self.dot(other)`; the spec reads this as
"every component of the *per-component product* `self.dot(other)`-like
result" (§4.2, Design Notes), i.e. the componentwise product vector. -/
def Vec3.compMul (a b : Vec3) : Vec3 :=
  ⟨a.x * b.x, a.y * b.y, a.z * b.z⟩

/-- Python float division: `a / b` raises `ZeroDivisionError` when `b` is
zero, otherwise yields the quotient. -/
def pydiv (a b : ℝ) : Except String ℝ :=
  if b = 0 then .error "float division by zero" else .ok (a / b)

/-- `math.acos`: raises `ValueError("math domain error")` outside
`[-1, 1]`, otherwise yields the principal arccosine. -/
def pyacos (r : ℝ) : Except String ℝ :=
  if r < -1 ∨ 1 < r then .error "math domain error" else .ok (Real.arccos r)

/-- Python float `%`: for positive modulus `b`, `a % b = a - b*⌊a/b⌋`,
a value in `[0, b)`. -/
def pymod (a b : ℝ) : ℝ :=
  a - b * ⌊a / b⌋

/-- Two-argument arctangent (`math.atan2` / `numpy.arctan2`): the azimuth
of the point `(x, y)`, in `(-π, π]`. -/
def atan2 (y x : ℝ) : ℝ :=
  if 0 < x then Real.arctan (y / x)
  else if x < 0 ∧ 0 ≤ y then Real.arctan (y / x) + Real.pi
  else if x < 0 ∧ y < 0 then Real.arctan (y / x) - Real.pi
  else if x = 0 ∧ 0 < y then Real.pi / 2
  else if x = 0 ∧ y < 0 then -(Real.pi / 2)
  else 0

/-- `numpy.clip(out, lo, hi)` elementwise: values below `lo` become `lo`,
values above `hi` become `hi`. -/
def npclip (lo hi v : ℝ) : ℝ :=
  min hi (max lo v)

/-- `Common.mag2`: `self.dot(self)`. -/
def Common.mag2 (v : Vec3) : ℝ :=
  v.dot v

/-- `Common.mag`: `sqrt(self.mag2())`. -/
def Common.mag (v : Vec3) : ℝ :=
  Real.sqrt (Common.mag2 v)

/-- `Common.rho2`: `x*x + y*y`. -/
def Common.rho2 (v : Vec3) : ℝ :=
  v.x * v.x + v.y * v.y

/-- The azimuthal-difference formula of `Common.delta_phi`:
`(phi1 - phi2 + math.pi) % (2*math.pi) - math.pi`. -/
def deltaPhiRaw (phi1 phi2 : ℝ) : ℝ :=
  pymod (phi1 - phi2 + Real.pi) (2 * Real.pi) - Real.pi

/-- `Methods.phi`: `math.atan2(self.y, self.x)`. -/
def Methods.phi (v : Vec3) : ℝ :=
  atan2 v.y v.x

/-- `Common.delta_phi` in scalar mode:
`(self.phi() - other.phi() + math.pi) % (2*math.pi) - math.pi`. -/
def Common.delta_phi (a b : Vec3) : ℝ :=
  deltaPhiRaw (Methods.phi a) (Methods.phi b)

/-- `Methods.cosdelta`: return `1.0` when either squared magnitude is
zero, else `dot/sqrt(m1*m2)` clamped into `[-1, 1]` by
`max(-1.0, min(1.0, r))`. -/
def Methods.cosdelta (a b : Vec3) : ℝ :=
  let m1 := Common.mag2 a
  let m2 := Common.mag2 b
  if m1 = 0 ∨ m2 = 0 then 1
  else max (-1) (min 1 (a.dot b / Real.sqrt (m1 * m2)))

/-- `Common.isparallel` (scalar mode): `1 - self.cosdelta(other) < tolerance`. -/
def Common.isparallel (a b : Vec3) (tolerance : ℝ) : Prop :=
  1 - Methods.cosdelta a b < tolerance

/-- `Common.isantiparallel` (scalar mode): `self.cosdelta(other) - (-1) < tolerance`. -/
def Common.isantiparallel (a b : Vec3) (tolerance : ℝ) : Prop :=
  Methods.cosdelta a b - (-1) < tolerance

/-- `Common.iscollinear` (scalar mode): `1 - |self.cosdelta(other)| < tolerance`. -/
def Common.iscollinear (a b : Vec3) (tolerance : ℝ) : Prop :=
  1 - |Methods.cosdelta a b| < tolerance

/-- `Common.__lt__`: always `raise TypeError("spatial vectors have no natural ordering")`. -/
def Common.lt (_a _b : Vec3) : Except String Bool :=
  .error "spatial vectors have no natural ordering"

/-- `Common.__gt__`: always `raise TypeError("spatial vectors have no natural ordering")`. -/
def Common.gt (_a _b : Vec3) : Except String Bool :=
  .error "spatial vectors have no natural ordering"

/-- `Common.__le__`: always `raise TypeError("spatial vectors have no natural ordering")`. -/
def Common.le (_a _b : Vec3) : Except String Bool :=
  .error "spatial vectors have no natural ordering"

/-- `Common.__ge__`: always `raise TypeError("spatial vectors have no natural ordering")`. -/
def Common.ge (_a _b : Vec3) : Except String Bool :=
  .error "spatial vectors have no natural ordering"

/-- `Methods.unit`: `self / self.mag()` — componentwise Python float
division by the magnitude, which raises `ZeroDivisionError` when the
magnitude is zero. -/
def Methods.unit (v : Vec3) : Except String Vec3 :=
  match pydiv v.x (Common.mag v), pydiv v.y (Common.mag v), pydiv v.z (Common.mag v) with
  | .ok a, .ok b, .ok c => .ok ⟨a, b, c⟩
  | .error e, _, _ => .error e
  | _, .error e, _ => .error e
  | _, _, .error e => .error e

/-- `Methods.angle`: `math.acos(self.cosdelta(other))`, optionally scaled
by `180.0/math.pi`. -/
def Methods.angle (a b : Vec3) (degrees : Bool) : Except String ℝ :=
  match pyacos (Methods.cosdelta a b) with
  | .error e => .error e
  | .ok o => .ok (if degrees then o * (180 / Real.pi) else o)

/-- `Methods.isopposite`: `tmp = self + other`;
`abs(tmp.x) < tolerance and abs(tmp.y) < tolerance and abs(tmp.z) < tolerance`. -/
def Methods.isopposite (a b : Vec3) (tolerance : ℝ) : Prop :=
  let tmp := a + b
  |tmp.x| < tolerance ∧ |tmp.y| < tolerance ∧ |tmp.z| < tolerance

/-- `Methods.isperpendicular`: `tmp = self.dot(other)` read per-component
(see `Vec3.compMul`);
`abs(tmp.x) < tolerance and abs(tmp.y) < tolerance and abs(tmp.z) < tolerance`. -/
def Methods.isperpendicular (a b : Vec3) (tolerance : ℝ) : Prop :=
  let tmp := a.compMul b
  |tmp.x| < tolerance ∧ |tmp.y| < tolerance ∧ |tmp.z| < tolerance

/-!
Array mode.  An array vector-like value is an equal-length sequence of
vectors, here a `List Vec3`; every numpy elementwise operation (including
the output-buffer `out=` variants, which only recycle storage) is the
`List.map`/`List.zipWith` of its per-element meaning, and boolean-mask
writes (`out[mask] /= denom`, `out[mask] = 1`) become the per-element
conditional they select.
-/

/-- `Common.mag2` in array mode: `self.dot(self)` with the external
elementwise `dot`. -/
def ArrayMethods.mag2 (vs : List Vec3) : List ℝ :=
  List.zipWith Vec3.dot vs vs

/-- `Common.mag` in array mode: `numpy.sqrt(self.mag2())` elementwise. -/
def ArrayMethods.mag (vs : List Vec3) : List ℝ :=
  (ArrayMethods.mag2 vs).map Real.sqrt

/-- `ArrayMethods.phi`: `numpy.arctan2(self.y, self.x)` elementwise. -/
def ArrayMethods.phi (vs : List Vec3) : List ℝ :=
  vs.map (fun v => atan2 v.y v.x)

/-- `ArrayMethods.unit(inplace)`: with `inplace=True`, `self /= self.mag()`
mutates the caller's buffers and returns nothing (`None`); otherwise the
object is left untouched and `self / self.mag()` is returned fresh.  The
mutation is embedded by state passing: the first component is the state of
the object's buffers after the call, the second the returned value. -/
def ArrayMethods.unit (vs : List Vec3) (inplace : Bool) : List Vec3 × Option (List Vec3) :=
  let divided := vs.map (fun v => ⟨v.x / Common.mag v, v.y / Common.mag v, v.z / Common.mag v⟩)
  if inplace then (divided, none) else (vs, some divided)

/-- `ArrayMethods.cosdelta`, elementwise meaning of the masked code:
`denom = mag2(self) * mag2(other)`; where `denom > 0` the output is
`dot/sqrt(denom)`, elsewhere it is forced to `1`; finally the whole output
is clipped into `[-1, 1]`. -/
def ArrayMethods.cosdelta (a b : List Vec3) : List ℝ :=
  List.zipWith (fun u v =>
    let denom := (u.dot u) * (v.dot v)
    let out := if 0 < denom then u.dot v / Real.sqrt denom else 1
    npclip (-1) 1 out) a b

/-- `ArrayMethods.angle` with `normal=None`:
`numpy.arccos(self.cosdelta(other))` elementwise, optionally scaled in
place by `180.0/numpy.pi`. -/
def ArrayMethods.angle (a b : List Vec3) (degrees : Bool) : List ℝ :=
  (ArrayMethods.cosdelta a b).map (fun c =>
    let o := Real.arccos c
    if degrees then o * (180 / Real.pi) else o)

/-- `ArrayMethods.isopposite`: `tmp = self + other`, absolute value of each
component in place, then the conjunction of the three `< tolerance`
comparisons via `bitwise_and`, elementwise. -/
def ArrayMethods.isopposite (a b : List Vec3) (tolerance : ℝ) : List Prop :=
  List.zipWith (fun u v =>
    let tmp := u + v
    |tmp.x| < tolerance ∧ |tmp.y| < tolerance ∧ |tmp.z| < tolerance) a b

/-- `ArrayMethods.isperpendicular`: same shape as `isopposite` but starting
from `self.dot(other)` read per-component (see `Vec3.compMul`). -/
def ArrayMethods.isperpendicular (a b : List Vec3) (tolerance : ℝ) : List Prop :=
  List.zipWith (fun u v =>
    let tmp := u.compMul v
    |tmp.x| < tolerance ∧ |tmp.y| < tolerance ∧ |tmp.z| < tolerance) a b

end

/-! Helper lemmas shared by the claim theorems. -/

lemma dot_self_nonneg (v : Vec3) : 0 ≤ v.dot v := by
  unfold Vec3.dot
  nlinarith [mul_self_nonneg v.x, mul_self_nonneg v.y, mul_self_nonneg v.z]

lemma mag2_nonneg (v : Vec3) : 0 ≤ Common.mag2 v :=
  dot_self_nonneg v

lemma mag2_eq_zero_iff (v : Vec3) : Common.mag2 v = 0 ↔ v = ⟨0, 0, 0⟩ := by
  obtain ⟨x, y, z⟩ := v
  unfold Common.mag2 Vec3.dot
  constructor
  · intro h
    have hx : x * x = 0 := by
      nlinarith [mul_self_nonneg x, mul_self_nonneg y, mul_self_nonneg z]
    have hy : y * y = 0 := by
      nlinarith [mul_self_nonneg x, mul_self_nonneg y, mul_self_nonneg z]
    have hz : z * z = 0 := by
      nlinarith [mul_self_nonneg x, mul_self_nonneg y, mul_self_nonneg z]
    simp only [mul_self_eq_zero] at hx hy hz
    simp [hx, hy, hz]
  · intro h
    cases h
    norm_num

lemma scalar_cosdelta_mem (a b : Vec3) :
    -1 ≤ Methods.cosdelta a b ∧ Methods.cosdelta a b ≤ 1 := by
  unfold Methods.cosdelta
  by_cases h : Common.mag2 a = 0 ∨ Common.mag2 b = 0
  · simp [h]
  · simp only [h, if_false]
    constructor
    · exact le_max_left _ _
    · exact max_le (by norm_num) (min_le_left _ _)

lemma npclip_mem (v : ℝ) : -1 ≤ npclip (-1) 1 v ∧ npclip (-1) 1 v ≤ 1 := by
  unfold npclip
  constructor
  · exact le_min (by norm_num) (le_max_left _ _)
  · exact min_le_left _ _

/-- The per-element meaning of the masked array-mode `cosdelta` coincides
with the scalar-mode `cosdelta`. -/
lemma cosdelta_elem_eq (u v : Vec3) :
    npclip (-1) 1
      (if 0 < u.dot u * v.dot v then u.dot v / Real.sqrt (u.dot u * v.dot v) else 1) =
    Methods.cosdelta u v := by
  unfold Methods.cosdelta Common.mag2
  by_cases h : u.dot u = 0 ∨ v.dot v = 0
  · have hdenom : u.dot u * v.dot v = 0 := by
      rcases h with h | h <;> simp [h]
    simp [h, hdenom, npclip]
  · push_neg at h
    have h1 : 0 < u.dot u := lt_of_le_of_ne (dot_self_nonneg u) (Ne.symm h.1)
    have h2 : 0 < v.dot v := lt_of_le_of_ne (dot_self_nonneg v) (Ne.symm h.2)
    have hdenom : 0 < u.dot u * v.dot v := mul_pos h1 h2
    have hor : ¬(u.dot u = 0 ∨ v.dot v = 0) := by
      push_neg
      exact ⟨h.1, h.2⟩
    simp only [hdenom, if_true, hor, if_false, npclip]
    rw [min_max_distrib_left]
    norm_num

lemma cosdelta_self_eq_one (v : Vec3) (h : Common.mag2 v ≠ 0) :
    Methods.cosdelta v v = 1 := by
  unfold Methods.cosdelta
  have hor : ¬(Common.mag2 v = 0 ∨ Common.mag2 v = 0) := by
    push_neg
    exact ⟨h, h⟩
  have hsqrt : Real.sqrt (Common.mag2 v * Common.mag2 v) = Common.mag2 v :=
    Real.sqrt_mul_self (mag2_nonneg v)
  simp only [hor, if_false, hsqrt]
  have : v.dot v / Common.mag2 v = 1 := by
    rw [div_eq_one_iff_eq]
    · rfl
    · exact h
  rw [this]
  norm_num

lemma mag_34 : Common.mag ⟨3, 4, 0⟩ = 5 := by
  unfold Common.mag Common.mag2 Vec3.dot
  rw [show (3 : ℝ) * 3 + 4 * 4 + 0 * 0 = 5 ^ 2 by norm_num]
  exact Real.sqrt_sq (by norm_num)

lemma pymod_eq_mul_fract (a b : ℝ) (hb : b ≠ 0) : pymod a b = b * Int.fract (a / b) := by
  unfold pymod Int.fract
  field_simp

lemma pymod_range (a b : ℝ) (hb : 0 < b) : 0 ≤ pymod a b ∧ pymod a b < b := by
  rw [pymod_eq_mul_fract a b (ne_of_gt hb)]
  constructor
  · exact mul_nonneg (le_of_lt hb) (Int.fract_nonneg _)
  · have h1 : b * Int.fract (a / b) < b * 1 :=
      mul_lt_mul_of_pos_left (Int.fract_lt_one _) hb
    simpa using h1

lemma arrayMag_cons (x : Vec3) (xs : List Vec3) :
    ArrayMethods.mag (x :: xs) = Common.mag x :: ArrayMethods.mag xs := rfl

lemma mag_unit_elem (v : Vec3) (h : Common.mag v ≠ 0) :
    Common.mag ⟨v.x / Common.mag v, v.y / Common.mag v, v.z / Common.mag v⟩ = 1 := by
  have hmm : Common.mag v * Common.mag v = Common.mag2 v :=
    Real.mul_self_sqrt (mag2_nonneg v)
  have harg : Common.mag2 ⟨v.x / Common.mag v, v.y / Common.mag v, v.z / Common.mag v⟩ = 1 := by
    unfold Common.mag2 Vec3.dot at hmm ⊢
    field_simp
    linarith [hmm]
  have hdef : Common.mag ⟨v.x / Common.mag v, v.y / Common.mag v, v.z / Common.mag v⟩ =
      Real.sqrt (Common.mag2 ⟨v.x / Common.mag v, v.y / Common.mag v, v.z / Common.mag v⟩) := rfl
  rw [hdef, harg, Real.sqrt_one]

lemma mag_map_unit (vs : List Vec3) (h : ∀ v ∈ vs, Common.mag v ≠ 0) :
    ArrayMethods.mag
      (vs.map fun v => (⟨v.x / Common.mag v, v.y / Common.mag v, v.z / Common.mag v⟩ : Vec3)) =
    List.replicate vs.length 1 := by
  induction vs with
  | nil => rfl
  | cons x xs ih =>
    have hx : Common.mag x ≠ 0 := h x (List.mem_cons_self x xs)
    have hxs : ∀ v ∈ xs, Common.mag v ≠ 0 := fun v hv => h v (List.mem_cons_of_mem x hv)
    rw [List.map_cons, arrayMag_cons, mag_unit_elem x hx, ih hxs, List.length_cons,
      List.replicate_succ]

/-! Claim theorems. -/

/-- C4 counterexample: at `phi1 = π`, `phi2 = 0` the formula
`((phi1 - phi2 + π) mod 2π) - π` yields exactly `-π`, which is not in the
half-open interval `(-π, π]` (it is `≤ -π`), so the claimed interval is
wrong on that side. -/
theorem delta_phi_at_pi_zero :
    deltaPhiRaw Real.pi 0 = -Real.pi ∧ deltaPhiRaw Real.pi 0 ≤ -Real.pi := by
  have hne : (2 : ℝ) * Real.pi ≠ 0 := by
    have := Real.pi_pos
    positivity
  have hmod : pymod (Real.pi - 0 + Real.pi) (2 * Real.pi) = 0 := by
    unfold pymod
    rw [show Real.pi - 0 + Real.pi = 2 * Real.pi by ring, div_self hne]
    norm_num
  unfold deltaPhiRaw
  rw [hmod]
  norm_num

/-- C4 amended: for arbitrary real azimuthal angles `phi1`, `phi2`, the
value `((phi1 - phi2 + π) mod 2π) - π` lies in the half-open interval
`[-π, π)` — closed at `-π`, open at `π` (Python's `%` with a positive
modulus lands in `[0, 2π)`) — and `delta_phi(v, v) = 0` for every
vector `v`. -/
theorem delta_phi_range_and_self (phi1 phi2 : ℝ) (v : Vec3) :
    -Real.pi ≤ deltaPhiRaw phi1 phi2 ∧ deltaPhiRaw phi1 phi2 < Real.pi ∧
    Common.delta_phi v v = 0 := by
  have h2pi : (0 : ℝ) < 2 * Real.pi := by
    have := Real.pi_pos
    positivity
  obtain ⟨hlo, hhi⟩ := pymod_range (phi1 - phi2 + Real.pi) (2 * Real.pi) h2pi
  refine ⟨?_, ?_, ?_⟩
  · unfold deltaPhiRaw
    linarith
  · unfold deltaPhiRaw
    linarith
  · unfold Common.delta_phi deltaPhiRaw pymod
    have harg : Methods.phi v - Methods.phi v + Real.pi = Real.pi := by ring
    rw [harg]
    have hhalf : Real.pi / (2 * Real.pi) = 1 / 2 := by
      have := Real.pi_ne_zero
      field_simp
      ring
    rw [hhalf]
    have hfl : ⌊(1 / 2 : ℝ)⌋ = 0 := by
      rw [Int.floor_eq_zero_iff]
      constructor <;> norm_num
    rw [hfl]
    norm_num

theorem delta_phi_range_and_self_witness :
    -Real.pi ≤ deltaPhiRaw 1 2 ∧ deltaPhiRaw 1 2 < Real.pi ∧
    Common.delta_phi ⟨1, 0, 0⟩ ⟨1, 0, 0⟩ = 0 :=
  delta_phi_range_and_self 1 2 ⟨1, 0, 0⟩

/-- C2: `cosdelta(v, zero_vector)` is exactly `1` in scalar mode (the
`m1 == 0 or m2 == 0` branch) and at every position of the array-mode
result against an array of zero vectors (the `denom > 0` mask fails there
and the output is forced to `1`, which the final clip preserves). -/
theorem cosdelta_zero_vector (v : Vec3) (a : List Vec3) (i : ℕ) (h : i < a.length) :
    Methods.cosdelta v ⟨0, 0, 0⟩ = 1 ∧
    (ArrayMethods.cosdelta a (List.replicate a.length ⟨0, 0, 0⟩))[i]? = some 1 := by
  constructor
  · simp [Methods.cosdelta, Common.mag2, Vec3.dot]
  · rw [ArrayMethods.cosdelta, List.getElem?_zipWith, List.getElem?_eq_getElem h,
      List.getElem?_replicate, if_pos h]
    simp [Vec3.dot, npclip]

theorem cosdelta_zero_vector_witness :
    0 < ([⟨1, 2, 3⟩] : List Vec3).length ∧
    (Methods.cosdelta ⟨5, 6, 7⟩ ⟨0, 0, 0⟩ = 1 ∧
      (ArrayMethods.cosdelta [⟨1, 2, 3⟩]
        (List.replicate ([⟨1, 2, 3⟩] : List Vec3).length ⟨0, 0, 0⟩))[0]? = some 1) :=
  ⟨by norm_num, cosdelta_zero_vector ⟨5, 6, 7⟩ [⟨1, 2, 3⟩] 0 (by norm_num)⟩

/-- C9: for an array vector with every magnitude nonzero,
`unit(inplace=True)` mutates the buffers so that a subsequent `mag()` on
the same object yields `1` at every position (and returns `None`), while
`unit(inplace=False)` leaves the object's buffers — hence its `mag()` —
unchanged and returns a fresh normalized array whose `mag()` is `1` at
every position. -/
theorem unit_inplace_vs_fresh (vs : List Vec3) (h : ∀ v ∈ vs, Common.mag v ≠ 0) :
    ArrayMethods.mag (ArrayMethods.unit vs true).1 = List.replicate vs.length 1 ∧
    (ArrayMethods.unit vs true).2 = none ∧
    (ArrayMethods.unit vs false).1 = vs ∧
    ((ArrayMethods.unit vs false).2).map ArrayMethods.mag =
      some (List.replicate vs.length 1) := by
  refine ⟨?_, rfl, rfl, ?_⟩
  · show ArrayMethods.mag (vs.map _) = _
    exact mag_map_unit vs h
  · show some (ArrayMethods.mag (vs.map _)) = _
    rw [mag_map_unit vs h]

theorem unit_inplace_vs_fresh_witness :
    (∀ v ∈ ([⟨3, 4, 0⟩] : List Vec3), Common.mag v ≠ 0) ∧
    (ArrayMethods.mag (ArrayMethods.unit [⟨3, 4, 0⟩] true).1 =
        List.replicate ([⟨3, 4, 0⟩] : List Vec3).length 1 ∧
      (ArrayMethods.unit [⟨3, 4, 0⟩] true).2 = none ∧
      (ArrayMethods.unit [⟨3, 4, 0⟩] false).1 = [⟨3, 4, 0⟩] ∧
      ((ArrayMethods.unit [⟨3, 4, 0⟩] false).2).map ArrayMethods.mag =
        some (List.replicate ([⟨3, 4, 0⟩] : List Vec3).length 1)) := by
  have h : ∀ v ∈ ([⟨3, 4, 0⟩] : List Vec3), Common.mag v ≠ 0 := by
    intro v hv
    rw [List.mem_singleton] at hv
    rw [hv, mag_34]
    norm_num
  exact ⟨h, unit_inplace_vs_fresh [⟨3, 4, 0⟩] h⟩

/-- C3: for every pair of vectors the result of `cosdelta` lies in the
closed interval `[-1, 1]`: scalar mode clamps via `max(-1.0, min(1.0, r))`
and array mode clips the whole output via `clip(out, -1, 1)`, so every
element of the array-mode result is also in `[-1, 1]`. -/
theorem cosdelta_result_in_Icc (a b : Vec3) (u v : List Vec3) (r : ℝ)
    (hr : r ∈ ArrayMethods.cosdelta u v) :
    (-1 ≤ Methods.cosdelta a b ∧ Methods.cosdelta a b ≤ 1) ∧ (-1 ≤ r ∧ r ≤ 1) := by
  refine ⟨scalar_cosdelta_mem a b, ?_⟩
  unfold ArrayMethods.cosdelta at hr
  rw [List.mem_iff_get] at hr
  obtain ⟨n, hn⟩ := hr
  rw [← hn]
  simp only [List.get_eq_getElem, List.getElem_zipWith]
  exact npclip_mem _

theorem cosdelta_result_in_Icc_witness :
    (1 : ℝ) ∈ ArrayMethods.cosdelta [⟨0, 0, 0⟩] [⟨0, 0, 0⟩] ∧
    ((-1 ≤ Methods.cosdelta ⟨1, 0, 0⟩ ⟨0, 1, 0⟩ ∧ Methods.cosdelta ⟨1, 0, 0⟩ ⟨0, 1, 0⟩ ≤ 1) ∧
      (-1 ≤ (1 : ℝ) ∧ (1 : ℝ) ≤ 1)) := by
  have hmem : (1 : ℝ) ∈ ArrayMethods.cosdelta [⟨0, 0, 0⟩] [⟨0, 0, 0⟩] := by
    simp [ArrayMethods.cosdelta, Vec3.dot, npclip]
  exact ⟨hmem, cosdelta_result_in_Icc ⟨1, 0, 0⟩ ⟨0, 1, 0⟩ [⟨0, 0, 0⟩] [⟨0, 0, 0⟩] 1 hmem⟩

/-- C5: each of the four relational operators deterministically raises
`TypeError("spatial vectors have no natural ordering")` — embedded as an
`Except.error` result, so no boolean is ever returned. -/
theorem ordering_ops_always_error (a b : Vec3) :
    Common.lt a b = .error "spatial vectors have no natural ordering" ∧
    Common.gt a b = .error "spatial vectors have no natural ordering" ∧
    Common.le a b = .error "spatial vectors have no natural ordering" ∧
    Common.ge a b = .error "spatial vectors have no natural ordering" :=
  ⟨rfl, rfl, rfl, rfl⟩

/-- C6: for the scalar vectors `(3,4,0)` and `(4,3,0)`, `mag()` returns
`5.0` for each, `cosdelta` is `0.96` (`24/25` exactly in real arithmetic),
and `isperpendicular` with tolerance `1e-10` is `False` (the
per-component products `12, 12, 0` are not all below tolerance). -/
theorem example_34_43_values :
    Common.mag ⟨3, 4, 0⟩ = 5 ∧ Common.mag ⟨4, 3, 0⟩ = 5 ∧
    Methods.cosdelta ⟨3, 4, 0⟩ ⟨4, 3, 0⟩ = 0.96 ∧
    ¬Methods.isperpendicular ⟨3, 4, 0⟩ ⟨4, 3, 0⟩ (1 / 10 ^ 10) := by
  refine ⟨mag_34, ?_, ?_, ?_⟩
  · unfold Common.mag Common.mag2 Vec3.dot
    rw [show (4 : ℝ) * 4 + 3 * 3 + 0 * 0 = 5 ^ 2 by norm_num]
    exact Real.sqrt_sq (by norm_num)
  · unfold Methods.cosdelta Common.mag2 Vec3.dot
    have h625 : Real.sqrt ((3 * 3 + 4 * 4 + 0 * 0) * (4 * 4 + 3 * 3 + 0 * 0) : ℝ) = 25 := by
      rw [show ((3 : ℝ) * 3 + 4 * 4 + 0 * 0) * (4 * 4 + 3 * 3 + 0 * 0) = 25 ^ 2 by norm_num]
      exact Real.sqrt_sq (by norm_num)
    simp only [h625]
    norm_num
  · unfold Methods.isperpendicular Vec3.compMul
    norm_num

/-- C7: scalar-mode `unit()` is `self / mag()` componentwise, and when
`mag()` is zero it fails with the division error (no zero-magnitude
special case). -/
theorem unit_division (v : Vec3) :
    (Common.mag v = 0 → Methods.unit v = .error "float division by zero") ∧
    (Common.mag v ≠ 0 →
      Methods.unit v = .ok ⟨v.x / Common.mag v, v.y / Common.mag v, v.z / Common.mag v⟩) := by
  constructor
  · intro h
    unfold Methods.unit pydiv
    simp [h]
  · intro h
    unfold Methods.unit pydiv
    simp [h]

theorem unit_division_witness :
    (Common.mag ⟨0, 0, 0⟩ = 0 ∧
      Methods.unit ⟨0, 0, 0⟩ = .error "float division by zero") ∧
    (Common.mag ⟨3, 4, 0⟩ ≠ 0 ∧
      Methods.unit ⟨3, 4, 0⟩ =
        .ok ⟨3 / Common.mag ⟨3, 4, 0⟩, 4 / Common.mag ⟨3, 4, 0⟩, 0 / Common.mag ⟨3, 4, 0⟩⟩) := by
  have h0 : Common.mag ⟨0, 0, 0⟩ = 0 := by
    unfold Common.mag Common.mag2 Vec3.dot
    norm_num
  have h5 : Common.mag ⟨3, 4, 0⟩ ≠ 0 := by
    rw [mag_34]
    norm_num
  exact ⟨⟨h0, (unit_division ⟨0, 0, 0⟩).1 h0⟩, ⟨h5, (unit_division ⟨3, 4, 0⟩).2 h5⟩⟩

/-- C8: for every nonzero vector `v`, `isparallel(v, v)` with the default
tolerance `1e-10` holds: `cosdelta(v, v)` is exactly `1`, so
`1 - cosdelta(v, v) = 0 < 1e-10`. -/
theorem isparallel_self (v : Vec3) (h : v ≠ ⟨0, 0, 0⟩) :
    Common.isparallel v v (1 / 10 ^ 10) := by
  unfold Common.isparallel
  have hm : Common.mag2 v ≠ 0 := fun hc => h ((mag2_eq_zero_iff v).mp hc)
  rw [cosdelta_self_eq_one v hm]
  norm_num

theorem isparallel_self_witness :
    (⟨3, 4, 0⟩ : Vec3) ≠ ⟨0, 0, 0⟩ ∧ Common.isparallel ⟨3, 4, 0⟩ ⟨3, 4, 0⟩ (1 / 10 ^ 10) := by
  have h : (⟨3, 4, 0⟩ : Vec3) ≠ ⟨0, 0, 0⟩ := by
    intro hc
    have := congrArg Vec3.x hc
    norm_num at this
  exact ⟨h, isparallel_self ⟨3, 4, 0⟩ h⟩

/-- C10: scalar-mode `angle` is total: `cosdelta` always lands in `[-1,1]`
so the `math.acos` domain-error branch is unreachable, and the result lies
in `[0, π]` (or `[0, 180]` with `degrees=True`). -/
theorem angle_total_and_bounded (a b : Vec3) (d : Bool) :
    ∃ r, Methods.angle a b d = .ok r ∧ 0 ≤ r ∧ r ≤ if d then (180 : ℝ) else Real.pi := by
  obtain ⟨hlo, hhi⟩ := scalar_cosdelta_mem a b
  have hdom : ¬(Methods.cosdelta a b < -1 ∨ 1 < Methods.cosdelta a b) := by
    push_neg
    exact ⟨hlo, hhi⟩
  unfold Methods.angle pyacos
  rw [if_neg hdom]
  refine ⟨_, rfl, ?_, ?_⟩
  · cases d
    · simpa using Real.arccos_nonneg _
    · simp only [Bool.cond_true, if_true]
      have h1 := Real.arccos_nonneg (Methods.cosdelta a b)
      have h2 : (0 : ℝ) ≤ 180 / Real.pi := by positivity
      positivity
  · cases d
    · simpa using Real.arccos_le_pi _
    · simp only [if_true]
      have h1 := Real.arccos_le_pi (Methods.cosdelta a b)
      have hpi : (0 : ℝ) < Real.pi := Real.pi_pos
      have h2 : Real.arccos (Methods.cosdelta a b) * (180 / Real.pi) ≤
          Real.pi * (180 / Real.pi) := by
        apply mul_le_mul_of_nonneg_right h1
        positivity
      calc Real.arccos (Methods.cosdelta a b) * (180 / Real.pi) ≤
          Real.pi * (180 / Real.pi) := h2
        _ = 180 := by
          field_simp

/-- C1: array mode agrees with scalar mode elementwise: whenever position
`i` of the input arrays holds vectors `u` and `v`, the `i`-th element of
each array-mode result equals the scalar-mode computation on `u` (and
`v`), for `mag`, `phi`, `cosdelta`, `angle` (with `normal=None`),
`isopposite` and `isperpendicular`. -/
theorem scalar_array_agree (a b : List Vec3) (i : ℕ) (u v : Vec3) (t : ℝ) (d : Bool)
    (hu : a[i]? = some u) (hv : b[i]? = some v) :
    (ArrayMethods.mag a)[i]? = some (Common.mag u) ∧
    (ArrayMethods.phi a)[i]? = some (Methods.phi u) ∧
    (ArrayMethods.cosdelta a b)[i]? = some (Methods.cosdelta u v) ∧
    (ArrayMethods.angle a b d)[i]? = (Methods.angle u v d).toOption ∧
    (ArrayMethods.isopposite a b t)[i]? = some (Methods.isopposite u v t) ∧
    (ArrayMethods.isperpendicular a b t)[i]? = some (Methods.isperpendicular u v t) := by
  have hcd : (ArrayMethods.cosdelta a b)[i]? = some (Methods.cosdelta u v) := by
    rw [ArrayMethods.cosdelta, List.getElem?_zipWith, hu, hv]
    simp only []
    exact congrArg some (cosdelta_elem_eq u v)
  refine ⟨?_, ?_, hcd, ?_, ?_, ?_⟩
  · rw [ArrayMethods.mag, ArrayMethods.mag2, List.getElem?_map, List.getElem?_zipWith, hu]
    rfl
  · rw [ArrayMethods.phi, List.getElem?_map, hu]
    rfl
  · rw [ArrayMethods.angle, List.getElem?_map, hcd]
    obtain ⟨hlo, hhi⟩ := scalar_cosdelta_mem u v
    have hdom : ¬(Methods.cosdelta u v < -1 ∨ 1 < Methods.cosdelta u v) := by
      push_neg
      exact ⟨hlo, hhi⟩
    rw [Methods.angle, pyacos, if_neg hdom]
    rfl
  · rw [ArrayMethods.isopposite, List.getElem?_zipWith, hu, hv]
    rfl
  · rw [ArrayMethods.isperpendicular, List.getElem?_zipWith, hu, hv]
    rfl

theorem scalar_array_agree_witness :
    ([⟨3, 4, 0⟩] : List Vec3)[0]? = some ⟨3, 4, 0⟩ ∧
    ([⟨4, 3, 0⟩] : List Vec3)[0]? = some ⟨4, 3, 0⟩ ∧
    ((ArrayMethods.mag [⟨3, 4, 0⟩])[0]? = some (Common.mag ⟨3, 4, 0⟩) ∧
      (ArrayMethods.phi [⟨3, 4, 0⟩])[0]? = some (Methods.phi ⟨3, 4, 0⟩) ∧
      (ArrayMethods.cosdelta [⟨3, 4, 0⟩] [⟨4, 3, 0⟩])[0]? =
        some (Methods.cosdelta ⟨3, 4, 0⟩ ⟨4, 3, 0⟩) ∧
      (ArrayMethods.angle [⟨3, 4, 0⟩] [⟨4, 3, 0⟩] false)[0]? =
        (Methods.angle ⟨3, 4, 0⟩ ⟨4, 3, 0⟩ false).toOption ∧
      (ArrayMethods.isopposite [⟨3, 4, 0⟩] [⟨4, 3, 0⟩] (1 / 10 ^ 10))[0]? =
        some (Methods.isopposite ⟨3, 4, 0⟩ ⟨4, 3, 0⟩ (1 / 10 ^ 10)) ∧
      (ArrayMethods.isperpendicular [⟨3, 4, 0⟩] [⟨4, 3, 0⟩] (1 / 10 ^ 10))[0]? =
        some (Methods.isperpendicular ⟨3, 4, 0⟩ ⟨4, 3, 0⟩ (1 / 10 ^ 10))) :=
  ⟨rfl, rfl,
    scalar_array_agree [⟨3, 4, 0⟩] [⟨4, 3, 0⟩] 0 ⟨3, 4, 0⟩ ⟨4, 3, 0⟩ (1 / 10 ^ 10) false
      rfl rfl⟩
